import Mathlib

/-!
Verification of the NeXus-style unit conversion module (`nxsunit.py`) of the
sasdata repository.

The Python module is shallowly embedded:

* Python `float` values are modelled as exact rationals (`ℚ`).  All numeric
  literals of the source (`1e-3`, `5./9.`, `32 - 491.67`, ...) are decimal or
  small-fraction values, so the rational model coincides with the intent of
  the code; `math.pi` is modelled by the exact rational value of the IEEE-754
  double `math.pi`.
* Python `dict`s are modelled as association lists in insertion order, with
  lookup returning the binding of the *last* insertion of a key, which is the
  value held by the Python dict after the same sequence of updates.
* The regular-expression substitutions of `standardize_units` and
  `_format_unit_structure` are modelled by explicit scanners implementing the
  leftmost, greedy matching of the concrete patterns appearing in the source
  (each pattern is a literal alternation with optional groups, so greedy
  scanning coincides with Python `re.sub` semantics; every pattern consumes at
  least one character).
* Exceptions (`KeyError` from `AMBIGUITIES[...]`, `ValueError` from
  `_get_scale_for_units`) are modelled with `Except`.
-/

/-- Characters are processed as lists; `Str` abbreviates `List Char`. -/
abbrev Str := List Char

/-- ASCII lower-casing of a character (used for `re.IGNORECASE` matching). -/
def asciiLower (c : Char) : Char :=
  if 'A' ≤ c ∧ c ≤ 'Z' then Char.ofNat (c.toNat + 32) else c

/-- ASCII upper-casing of a character. -/
def asciiUpper (c : Char) : Char :=
  if 'a' ≤ c ∧ c ≤ 'z' then Char.ofNat (c.toNat - 32) else c

/-- Python `str.lower` for the ASCII strings used by the table builders. -/
def pyLower (s : String) : String := ⟨s.data.map asciiLower⟩

/-- Python `str.capitalize`: first character upper-cased, rest lower-cased. -/
def pyCapitalize (s : String) : String :=
  match s.data with
  | [] => ""
  | c :: cs => ⟨asciiUpper c :: cs.map asciiLower⟩

/-- Case-insensitive character comparison (ASCII). -/
def ciEq (a b : Char) : Bool := asciiLower a == asciiLower b

/-- Does `s` start with the literal `pat`, case-insensitively? -/
def startsCI : Str → Str → Bool
  | [], _ => true
  | _ :: _, [] => false
  | p :: ps, c :: cs => ciEq p c && startsCI ps cs

/-- Leftmost repeated substitution: at every position try the matcher `m`
(which returns the number of consumed characters, always at least one for the
patterns of the source); on a match emit `repl` and continue after the match,
otherwise keep the character.  This is `re.sub(pattern, repl, s)` for the
concrete patterns of the source. -/
def subAllGo (m : Str → Option Nat) (repl : Str) : Nat → Str → Str
  | _, [] => []
  | 0, s => s
  | fuel + 1, c :: cs =>
    match m (c :: cs) with
    | some n => repl ++ subAllGo m repl fuel ((c :: cs).drop (max n 1))
    | none => c :: subAllGo m repl fuel cs

/-- The substitution with enough fuel for the whole string (every step
consumes at least one character). -/
def subAll (m : Str → Option Nat) (repl : Str) (s : Str) : Str :=
  subAllGo m repl s.length s

/-- Matcher for `[ÅAa]ng(str[oö]m)?(s)?` (IGNORECASE). -/
def matchAngstrom : Str → Option Nat
  | c :: rest =>
    if c = 'Å' ∨ c = 'å' ∨ c = 'A' ∨ c = 'a' then
      if startsCI "ng".data rest then
        let r2 := rest.drop 2
        let n3 :=
          if startsCI "str".data r2 then
            match r2.drop 3 with
            | o :: m :: _ =>
              if (o = 'o' ∨ o = 'O' ∨ o = 'ö' ∨ o = 'Ö') ∧ (m = 'm' ∨ m = 'M')
              then 5 else 0
            | _ => 0
          else 0
        let r3 := r2.drop n3
        let n4 := match r3 with
          | d :: _ => if d = 's' ∨ d = 'S' then 1 else 0
          | [] => 0
        some (3 + n3 + n4)
      else none
    else none
  | [] => none

/-- Matcher for `(met(er|re)(s)?)` (IGNORECASE). -/
def matchMeter (s : Str) : Option Nat :=
  if startsCI "met".data s then
    let rest := s.drop 3
    if startsCI "er".data rest ∨ startsCI "re".data rest then
      let r2 := rest.drop 2
      some (5 + (match r2 with
        | d :: _ => if d = 's' ∨ d = 'S' then 1 else 0
        | [] => 0))
    else none
  else none

/-- Matcher for a pattern `lit(opt)?(s)?` (IGNORECASE), used for
`sec(ond)?(s)?` and `kel(vin)?(s)?`. -/
def matchLitOptS (lit opt : Str) (s : Str) : Option Nat :=
  if startsCI lit s then
    let r := s.drop lit.length
    let n2 := if startsCI opt r then opt.length else 0
    let r2 := r.drop n2
    let n3 := match r2 with
      | d :: _ => if d = 's' ∨ d = 'S' then 1 else 0
      | [] => 0
    some (lit.length + n2 + n3)
  else none

/-- Matcher for `cel(cius)?` (IGNORECASE). -/
def matchCel (s : Str) : Option Nat :=
  if startsCI "cel".data s then
    some (if startsCI "celcius".data s then 7 else 3)
  else none

/-- Matcher for `h(ert)?z` (IGNORECASE). -/
def matchHz (s : Str) : Option Nat :=
  if startsCI "hertz".data s then some 5
  else if startsCI "hz".data s then some 2
  else none

/-- Matcher for
`(arb(itrary|[.]|)?( )?(units)?|a[.] ?u[.]|au[.]?|aus[.]?)` (IGNORECASE);
alternatives are tried in order, as Python does. -/
def matchArb (s : Str) : Option Nat :=
  if startsCI "arb".data s then
    let r1 := s.drop 3
    let n2 := if startsCI "itrary".data r1 then 6
              else if startsCI ".".data r1 then 1 else 0
    let r2 := r1.drop n2
    let n3 := if startsCI " ".data r2 then 1 else 0
    let r3 := r2.drop n3
    let n4 := if startsCI "units".data r3 then 5 else 0
    some (3 + n2 + n3 + n4)
  else if startsCI "a. u.".data s then some 5
  else if startsCI "a.u.".data s then some 4
  else if startsCI "au".data s then
    some (if startsCI "au.".data s then 3 else 2)
  else if startsCI "aus".data s then
    some (if startsCI "aus.".data s then 4 else 3)
  else none

/-- Matcher for `(unk)(nown)?` (IGNORECASE). -/
def matchUnk (s : Str) : Option Nat :=
  if startsCI "unknown".data s then some 7
  else if startsCI "unk".data s then some 3
  else none

/-- Matcher for `(c)(oun)?(t)(s)?` (IGNORECASE). -/
def matchCts (s : Str) : Option Nat :=
  let base : Option Nat :=
    if startsCI "count".data s then some 5
    else if startsCI "ct".data s then some 2
    else none
  match base with
  | some n =>
    some (n + (match s.drop n with
      | d :: _ => if d = 's' ∨ d = 'S' then 1 else 0
      | [] => 0))
  | none => none

/-- Matcher for a case-insensitive literal (used for `inv` and `1/`). -/
def matchCI (pat : Str) (s : Str) : Option Nat :=
  if startsCI pat s then some pat.length else none

/-- The ordered spelling-canonicalization passes of `standardize_units`. -/
def spellSubs (s : Str) : Str :=
  let s := subAll matchAngstrom "Å".data s
  let s := subAll matchMeter "m".data s
  let s := subAll (matchLitOptS "sec".data "ond".data) "s".data s
  let s := subAll (matchLitOptS "kel".data "vin".data) "K".data s
  let s := subAll matchCel "℃".data s
  let s := subAll matchHz "Hz".data s
  let s := subAll matchArb "a.u.".data s
  let s := subAll matchUnk "Unk".data s
  let s := subAll matchCts "cts".data s
  s

/-- Character class `[℃ÅA-Za-z_ ]` of the exponent-attachment pattern. -/
def isClassChar (c : Char) : Bool :=
  decide (c = '℃' ∨ c = 'Å' ∨ ('A' ≤ c ∧ c ≤ 'Z') ∨ ('a' ≤ c ∧ c ≤ 'z') ∨ c = '_' ∨ c = ' ')

/-- Character class `[-0-9]` of the exponent-attachment pattern. -/
def isNumChar (c : Char) : Bool :=
  decide (c = '-' ∨ ('0' ≤ c ∧ c ≤ '9'))

/-- `re.sub('([℃ÅA-Za-z_ ]+)([-0-9]+)', r"\1^\2", s)`: a maximal run of class
characters immediately followed by a maximal run of `[-0-9]` characters gets a
caret inserted between the runs.  The two classes are disjoint, so this is
exactly: insert `^` at every boundary whose left character is a class
character and whose right character is a `[-0-9]` character. -/
def expAttach : Str → Str
  | [] => []
  | [c] => [c]
  | c :: d :: cs =>
    if isClassChar c ∧ isNumChar d then c :: '^' :: expAttach (d :: cs)
    else c :: expAttach (d :: cs)

/-- Python `str.replace(pat, repl)`: replace every (leftmost, non-overlapping)
occurrence; `pat` is non-empty for all uses in the source. -/
def replaceAllGo (pat repl : Str) : Nat → Str → Str
  | _, [] => []
  | 0, s => s
  | fuel + 1, c :: cs =>
    if pat.isPrefixOf (c :: cs) then
      repl ++ replaceAllGo pat repl fuel ((c :: cs).drop (max pat.length 1))
    else c :: replaceAllGo pat repl fuel cs

/-- The replacement with enough fuel for the whole string. -/
def replaceAll (pat repl : Str) (s : Str) : Str :=
  replaceAllGo pat repl s.length s

/-- The `PREFIX` table of long metric prefixes, in insertion order. -/
def PREFIX : List (String × ℚ) :=
  [("peta", 10^15), ("tera", 10^12), ("giga", 10^9), ("mega", 10^6),
   ("kilo", 10^3), ("deci", 1/10), ("centi", 1/100), ("milli", 1/1000),
   ("mili", 1/1000), ("micro", 1/10^6), ("nano", 1/10^9),
   ("pico", 1/10^12), ("femto", 1/10^15)]

/-- The `SHORT_PREFIX` table of one-letter metric prefixes. -/
def SHORT_PREFIX : List (String × ℚ) :=
  [("P", 10^15), ("T", 10^12), ("G", 10^9), ("M", 10^6), ("k", 10^3),
   ("d", 1/10), ("c", 1/100), ("m", 1/1000), ("u", 1/10^6), ("n", 1/10^9),
   ("p", 1/10^12), ("f", 1/10^15)]

/-- `centi*metre -> centimetre`: drop the `*` after every known prefix, long
prefixes first, then short ones, as in the source. -/
def prefixGlue (s : Str) : Str :=
  (PREFIX.map (·.1) ++ SHORT_PREFIX.map (·.1)).foldl
    (fun s p => replaceAll (p.data ++ ['*']) p.data s) s

/-- Remaining `*` become token separators. -/
def starToSpace (s : Str) : Str := replaceAll ['*'] [' '] s

/-- `inv` and `1/` (IGNORECASE) become the division marker `/`. -/
def invSubs (s : Str) : Str :=
  subAll (matchCI "1/".data) ['/'] (subAll (matchCI "inv".data) ['/'] s)

/-- `_`, `(` and `)` are deleted. -/
def stripPunct (s : Str) : Str :=
  s.filter (fun c => !decide (c = '_' ∨ c = '(' ∨ c = ')'))

/-- All textual passes of `_format_unit_structure` before token assembly. -/
def preFormat (s : Str) : Str :=
  stripPunct (invSubs (starToSpace (prefixGlue (expAttach s))))

/-- Python `s.split(sep)` for a single-character separator: keeps empty
pieces, returns `n+1` pieces for `n` separators. -/
def splitOnC (sep : Char) : Str → List Str
  | [] => [[]]
  | c :: cs =>
    if c = sep then [] :: splitOnC sep cs
    else
      match splitOnC sep cs with
      | [] => [[c]]
      | h :: t => (c :: h) :: t

/-- The whitespace characters of Python `str.split()` / `str.strip()`. -/
def isPyWs (c : Char) : Bool :=
  decide (c = ' ' ∨ c = '\t' ∨ c = '\n' ∨ c = '\r' ∨ c = '\x0b' ∨ c = '\x0c')

/-- Accumulator worker for Python `s.split()` (current piece reversed). -/
def splitWsGo (cur : Str) : Str → List Str
  | [] => if cur = [] then [] else [cur.reverse]
  | c :: cs =>
    if isPyWs c then
      if cur = [] then splitWsGo [] cs else cur.reverse :: splitWsGo [] cs
    else splitWsGo (c :: cur) cs

/-- Python `s.split()`: split on whitespace runs, dropping empty pieces. -/
def splitWsC (s : Str) : List Str := splitWsGo [] s

/-- Python `str.strip()`. -/
def pyStrip (s : Str) : Str :=
  ((s.dropWhile isPyWs).reverse.dropWhile isPyWs).reverse

/-- The final `.replace('\x7b\x7b', '\x7b').replace('\x7d\x7d', '\x7d')` of token
assembly. -/
def collapseBraces (s : Str) : Str :=
  replaceAll ['\x7d', '\x7d'] ['\x7d'] (replaceAll ['\x7b', '\x7b'] ['\x7b'] s)

/-- One token of `_format_unit_structure`: `item` split at `^`; a bare item on
the positive side gets a trailing space (removed again by `strip`), every
other item gets `^\x7bsign·exponent\x7d`; then `strip` and brace collapsing. -/
def tokOf (sign : Str) (item : Str) : Str :=
  match splitOnC '^' item with
  | [] => []
  | [n] =>
    if sign = ['-'] then
      collapseBraces (pyStrip (n ++ '^' :: '\x7b' :: sign ++ '1' :: ['\x7d']))
    else collapseBraces (pyStrip (n ++ [' ']))
  | n :: num :: _ =>
    collapseBraces (pyStrip (n ++ '^' :: '\x7b' :: (sign ++ num ++ ['\x7d'])))

/-- Token assembly of `_format_unit_structure`: split at `/` (`-` sign right
of the first `/`), split each factor at whitespace, emit one canonical token
per item. -/
def assembleTokens (s : Str) : List String :=
  ((splitOnC '/' s).enum.map (fun p =>
    let sign : Str := if 0 < p.1 then ['-'] else []
    (splitWsC p.2).filterMap (fun item =>
      if item = [] then none else some (⟨tokOf sign item⟩ : String)))).flatten

/-- `_format_unit_structure` of the source. -/
def _format_unit_structure (u : String) : List String :=
  assembleTokens (preFormat u.data)

/-- `standardize_units` of the source (on an actual string; `None` turns into
the string `"None"` before this point in the source and is handled at the
`Converter` level). -/
def standardize_units (u : String) : List String :=
  assembleTokens (preFormat (spellSubs u.data))

/-- `' '.join` on character lists. -/
def joinSpC : List Str → Str
  | [] => []
  | [t] => t
  | t :: ts => t ++ ' ' :: joinSpC ts

/-- `' '.join(tokens)`, as used by the `Converter.units` property. -/
def joinUnits (ts : List String) : String :=
  ⟨joinSpC (ts.map (·.data))⟩

deriving instance DecidableEq for Except

/-- `ConversionType`: a plain scale, or a `(scale, offset)` pair. -/
inductive ConversionType where
  | scal (s : ℚ)
  | pair (s o : ℚ)
deriving DecidableEq, Repr

/-- A dimension table: unit name to conversion factor, held as the list of
insertions in order; `dget` returns the last insertion for a key, exactly the
value a Python dict holds after the same updates. -/
abbrev DTable := List (String × ConversionType)

/-- Dict lookup (`d.get(k)`): the value of the last insertion of `k`. -/
def dget (d : DTable) (k : String) : Option ConversionType :=
  (d.reverse.find? (fun p => p.1 == k)).map (·.2)

/-- Dict update `d.update(new)`. -/
def dictUpd (d new : DTable) : DTable := d ++ new

/-- `_build_plural_units(**kw)`: singular and plural form of every entry. -/
def _build_plural_units (d : DTable) : DTable :=
  d ++ d.map (fun p => (p.1 ++ "s", p.2))

/-- `_build_metric_units(unit, abbr)` of the source: cross product of the four
name spellings with the long and short prefixes in plain, `*`- and `_`-joined
form, pluralized except for the bare abbreviation. -/
def _build_metric_units (unit abbr : String) : DTable :=
  [unit, pyCapitalize unit, pyLower unit, abbr].foldl (fun units name =>
    [PREFIX, SHORT_PREFIX].foldl (fun units items =>
      let names : DTable := [(name, .scal 1)]
      let names := dictUpd names (items.map (fun Ps => (Ps.1 ++ name, .scal Ps.2)))
      let names := dictUpd names (items.map (fun Ps => (Ps.1 ++ "*" ++ name, .scal Ps.2)))
      let names := dictUpd names (items.map (fun Ps => (Ps.1 ++ "_" ++ name, .scal Ps.2)))
      let names := if name ≠ abbr then dictUpd names (_build_plural_units names)
                   else names
      dictUpd units names) units) []

/-- `_build_degree_units(name, symbol, conversion)` of the source. -/
def _build_degree_units (name symbol : String) (conversion : ConversionType) :
    DTable :=
  let units : DTable := [(symbol, conversion)]
  let units := units ++ ([symbol, pyLower symbol].map (fun s =>
    [("deg" ++ s, conversion), ("deg_" ++ s, conversion),
     ("°" ++ s, conversion)])).flatten
  units ++ ([name, pyCapitalize name, symbol, pyLower symbol].map (fun s =>
    [(s, conversion), ("degree_" ++ s, conversion),
     ("degree" ++ s, conversion), ("degrees" ++ s, conversion)])).flatten

/-- `_build_inv_n_units(names, conversion, n)` of the source. -/
def _build_inv_n_units (names : List String) (conversion : ConversionType)
    (n : ℕ) : DTable :=
  (names.map (fun s =>
    [("1/" ++ s ++ "^" ++ toString n, conversion),
     ("inv" ++ s ++ "^" ++ toString n, conversion),
     (s ++ "^-" ++ toString n, conversion),
     (s ++ "^\x7b-" ++ toString n ++ "\x7d", conversion)])).flatten

/-- `float(c)` of a conversion entry (only applied to plain scales in the
source). -/
def floatOf : ConversionType → ℚ
  | .scal s => s
  | .pair s _ => s

/-- `_build_inv_n_metric_units(unit, abbr, n)` of the source: the loop over
`meter_map.items()` updating an initially empty dict is, as an insertion
list, the concatenation of the per-key blocks in order. -/
def _build_inv_n_metric_units (unit abbr : String) (n : ℕ) : DTable :=
  ((_build_metric_units unit abbr).map (fun p =>
    _build_inv_n_units [p.1] (.scal (1 / (floatOf p.2) ^ n)) n)).flatten

/-- The IEEE-754 double closest to π, the exact value of Python `math.pi`. -/
def floatPi : ℚ := 884279719003555 / 281474976710656

/-- The `AMBIGUITIES` table, in insertion order. -/
def AMBIGUITIES : List (String × String) :=
  [("A", "distance"), ("second", "time"), ("seconds", "time"),
   ("sec", "time"), ("°", "angle"), ("minute", "angle"),
   ("minutes", "angle"), ("min", "angle"), ("C", "temperature"),
   ("F", "temperature"), ("R", "temperature")]

/-- Lookup in `AMBIGUITIES` (last insertion wins, keys are distinct). -/
def aget (k : String) : Option String :=
  (AMBIGUITIES.reverse.find? (fun p => p.1 == k)).map (·.2)

/-- The distance dimension table. -/
def distance_dim : DTable :=
  let d := _build_metric_units "meter" "m"
  let d := dictUpd d (_build_metric_units "metre" "m")
  let d := dictUpd d (_build_plural_units
    [("micron", .scal (1/10^6)), ("Angstrom", .scal (1/10^10))])
  dictUpd d [("Å", .scal (1/10^10)), ("A", .scal (1/10^10)),
             ("Ang", .scal (1/10^10)), ("ang", .scal (1/10^10))]

/-- The time dimension table. -/
def time_dim : DTable :=
  let t := _build_metric_units "second" "s"
  let t := dictUpd t (_build_plural_units
    [("minute", .scal 60), ("hour", .scal 3600), ("day", .scal (24*3600)),
     ("week", .scal (7*24*3600))])
  let t := dictUpd t [("sec", .scal 1), ("min", .scal 60), ("hr", .scal 3600)]
  dictUpd t [("1e-7 s", .scal (1/10^7)), ("1e-7 second", .scal (1/10^7)),
             ("1e-7 seconds", .scal (1/10^7))]

/-- The angle dimension table. -/
def angle_dim : DTable :=
  let a := _build_plural_units
    [("degree", .scal 1), ("minute", .scal (1/60)), ("second", .scal (1/3600)),
     ("arcdegree", .scal 1), ("arcminute", .scal (1/60)),
     ("arcsecond", .scal (1/3600)), ("radian", .scal (180 / floatPi))]
  let a := dictUpd a
    [("deg", .scal 1), ("min", .scal (1/60)), ("sec", .scal (1/3600)),
     ("arcdeg", .scal 1), ("arcmin", .scal (1/60)), ("arcsec", .scal (1/3600)),
     ("angular_degree", .scal 1), ("angular_minute", .scal (1/60)),
     ("angular_second", .scal (1/3600)), ("rad", .scal (180 / floatPi))]
  dictUpd a [("°", .scal 1)]

/-- The frequency dimension table. -/
def frequency_dim : DTable :=
  let f := _build_metric_units "hertz" "Hz"
  let f := dictUpd f (_build_metric_units "Hertz" "Hz")
  let f := dictUpd f (_build_plural_units [("rpm", .scal (1/60))])
  dictUpd f (_build_inv_n_metric_units "second" "s" 1)

/-- The temperature dimension table: kelvin spellings as `(scale, 0)` pairs,
then the degree families, then the unicode symbols. -/
def temperature_dim : DTable :=
  let t := (_build_metric_units "kelvin" "K").map
    (fun p => (p.1, ConversionType.pair (floatOf p.2) 0))
  let t := dictUpd t (_build_degree_units "celcius" "C" (.pair 1 (-27315/100)))
  let t := dictUpd t (_build_degree_units "centigrade" "C"
    ((dget t "degC").getD (.scal 1)))
  let t := dictUpd t (_build_degree_units "fahrenheit" "F"
    (.pair (5/9) (32 - 49167/100)))
  let t := dictUpd t (_build_degree_units "rankine" "R" (.pair (5/9) 0))
  let t := dictUpd t [("℃", (dget t "degC").getD (.scal 1))]
  dictUpd t [("℉", (dget t "degF").getD (.scal 1))]

/-- The charge dimension table. -/
def charge_dim : DTable :=
  dictUpd (_build_metric_units "coulomb" "C")
    [("microAmp*hour", .scal (36/10^4))]

/-- The resistance dimension table. -/
def resistance_dim : DTable := _build_metric_units "ohm" "Ω"

/-- The scattering-length-density dimension table. -/
def sld_dim : DTable :=
  let s := _build_inv_n_metric_units "meter" "m" 2
  let s := dictUpd s (_build_inv_n_units
    ["Å", "A", "Ang", "Angstrom", "ang", "angstrom"] (.scal (10^20)) 2)
  dictUpd s [("10^-6 Angstrom^-2", .scal (1/10^6))]

/-- The Q (momentum-transfer) dimension table. -/
def Q_dim : DTable :=
  let q := _build_inv_n_metric_units "meter" "m" 1
  let q := dictUpd q (_build_inv_n_units
    ["Å", "A", "Ang", "Angstrom", "ang", "angstrom"] (.scal (10^10)) 1)
  dictUpd q [("10^-3 Angstrom^-1", .scal (1/10^3))]

/-- The inverse-volume dimension table. -/
def scattering_volume_dim : DTable :=
  let v := _build_inv_n_metric_units "meter" "m" 3
  dictUpd v (_build_inv_n_units
    ["Å", "A", "Ang", "Angstrom", "ang", "angstrom"] (.scal (10^10)) 3)

/-- The SESANS pseudo-dimension table. -/
def SESANS_dim : DTable :=
  [("Å^\x7b-2\x7d cm^\x7b-1\x7d", .scal 1), ("A^\x7b-2\x7d cm^\x7b-1\x7d", .scal 1)]

/-- The energy dimension table. -/
def energy_dim : DTable := _build_metric_units "electronvolt" "eV"

/-- The magnetism dimension table (gauss scaled by `1e-4`). -/
def magnetism_dim : DTable :=
  dictUpd (_build_metric_units "tesla" "T")
    ((_build_metric_units "gauss" "G").map
      (fun p => (p.1, ConversionType.scal (floatOf p.2 * (1/10^4)))))

/-- The dimensionless table. -/
def dimensionless_dim : DTable :=
  [("None", .scal 1), ("???", .scal 1), ("", .scal 1), ("A.U.", .scal 1),
   ("a.u.", .scal 1), ("arbitrary", .scal 1), ("arbitrary units", .scal 1),
   ("Counts", .scal 1), ("counts", .scal 1), ("Cts", .scal 1),
   ("cts", .scal 1), ("unitless", .scal 1), ("unknown", .scal 1),
   ("Unknown", .scal 1), ("Unk", .scal 1)]

/-- The `DIMENSIONS` registry in insertion order of `_build_all_units`. -/
def DIMENSIONS : List (String × DTable) :=
  [("distance", distance_dim), ("time", time_dim), ("angle", angle_dim),
   ("frequency", frequency_dim), ("temperature", temperature_dim),
   ("charge", charge_dim), ("resistance", resistance_dim),
   ("sld", sld_dim), ("Q", Q_dim),
   ("scattering_volume", scattering_volume_dim), ("SESANS", SESANS_dim),
   ("energy", energy_dim), ("magnetism", magnetism_dim),
   ("dimensionless", dimensionless_dim)]

/-- Lookup of a dimension name in `DIMENSIONS` (names are distinct). -/
def dimsGet (k : String) : Option DTable :=
  (DIMENSIONS.find? (fun p => p.1 = k)).map (·.2)

/-- The Python exceptions reachable from the `Converter` code paths. -/
inductive PyErr where
  | keyError
  | valueError
deriving DecidableEq, Repr

/-- The `Converter` state after a successful `__init__`. -/
structure Converter where
  _units : List String
  dimension : List String
  scalemap : List DTable
  scalebase : ℚ
  scaleoffset : ℚ
deriving DecidableEq, Repr

/-- The `units` property: source tokens re-joined with spaces. -/
def Converter.units (c : Converter) : String := joinUnits c._units

/-- The `isinstance(unit_scale, tuple)` accommodation: a plain scale becomes
`(scale, 0.0)`. -/
def asPair : ConversionType → ℚ × ℚ
  | .scal s => (s, 0)
  | .pair s o => (s, o)

/-- The loop body of `Converter._get_scale_for_units`: fold the paired
`(scalemap, unit)` entries, multiplying scales and adding offsets; a missing
unit raises `ValueError`. -/
def getScaleGo (base : ℚ × ℚ) : List (DTable × String) → Except PyErr (ℚ × ℚ)
  | [] => .ok base
  | (m, u) :: rest =>
    match dget m u with
    | none => .error .valueError
    | some cv => getScaleGo (base.1 * (asPair cv).1, base.2 + (asPair cv).2) rest

/-- `Converter._get_scale_for_units(units)` over a given scalemap list. -/
def _get_scale_for_units (scalemap : List DTable) (units : List String) :
    Except PyErr (ℚ × ℚ) :=
  getScaleGo (1, 0) (scalemap.zip units)

/-- Dimension resolution for one source token in `Converter.__init__`: an
ambiguous token indexes `AMBIGUITIES` by the *whole joined* units string
(raising `KeyError` when absent); otherwise the first dimension table holding
the token wins, with fallback `"dimensionless"`. -/
def resolveDimension (joined : String) (u : String) : Except PyErr String :=
  if (aget u).isSome then
    match aget joined with
    | some d => .ok d
    | none => .error .keyError
  else
    .ok (((DIMENSIONS.find? (fun p => (dget p.2 u).isSome)).map (·.1)).getD
      "dimensionless")

/-- `Converter.__init__(units, dimension)`: normalize the source units,
resolve dimensions (an explicit non-empty dimension list bypasses
resolution), build the scalemap with dimensionless fallback, and compute the
combined scale base and offset. -/
def Converter.mk? (units : Option String) (dimension : Option (List String) := none) :
    Except PyErr Converter := do
  let us := standardize_units (units.getD "a.u.")
  let joined := joinUnits us
  let dims ← match dimension with
    | some d => if d.isEmpty then us.mapM (resolveDimension joined)
                else pure d
    | none => us.mapM (resolveDimension joined)
  let scalemap := dims.map (fun d => (dimsGet d).getD dimensionless_dim)
  let base ← _get_scale_for_units scalemap us
  pure ⟨us, dims, scalemap, base.1, base.2⟩

/-- `Converter._scale_with_offset(value, scale_base)` of the source:
`(value + outoffset) * inscale / outscale - inoffset`. -/
def Converter._scale_with_offset (c : Converter) (value : ℚ) (scale_base : ℚ × ℚ) : ℚ :=
  (value + scale_base.2) * c.scalebase / scale_base.1 - c.scaleoffset

/-- `Converter.scale(units, value)`: normalize the target units, look up the
combined target factor, and apply the affine transform. -/
def Converter.scale (c : Converter) (units : String) (value : ℚ) :
    Except PyErr ℚ := do
  let us := standardize_units units
  let base ← _get_scale_for_units c.scalemap us
  pure (c._scale_with_offset value base)

/-- `Converter.__call__(value, units)`: an empty target-units string returns
the value unchanged. -/
def Converter.call (c : Converter) (value : ℚ) (units : String) :
    Except PyErr ℚ :=
  if units = "" then .ok value else c.scale units value

/-- No brace characters occur in the character list. -/
def braceFreeB (s : Str) : Bool := s.all (fun c => !(c == '\x7b' || c == '\x7d'))

/-- No Python whitespace occurs in the character list. -/
def wsFreeB (s : Str) : Bool := s.all (fun c => !(isPyWs c))

/-- No `/` occurs in the character list. -/
def slashFreeB (s : Str) : Bool := s.all (fun c => !(c == '/'))

/-- A canonical token as produced by token assembly: non-empty, free of
whitespace and `/`, and either caret- and brace-free, or of the shape
`name^\x7b...\x7d` with brace-free name and exponent text. -/
def isCanonTok (t : Str) : Bool :=
  !(t.isEmpty) && wsFreeB t && slashFreeB t &&
  (match splitOnC '^' t with
   | [n] => braceFreeB n
   | [n, e] =>
     braceFreeB n &&
     (match e, e.getLast? with
      | c :: rest, some l =>
        c == '\x7b' && l == '\x7d' && braceFreeB rest.dropLast
      | _, _ => false)
   | _ => false)

/-- The `(scale, offset)` pair looked up for one paired factor (the default
is irrelevant under the success hypotheses where this is used). -/
def lookupPair (p : DTable × String) : ℚ × ℚ :=
  asPair ((dget p.1 p.2).getD (.scal 1))

/-- The Converter the source builds for `degC` (used to state round-trip
facts; the `getD` default is never taken). -/
def convDegC : Converter :=
  (Converter.mk? (some "degC")).toOption.getD ⟨[], [], [], 1, 0⟩

/-- The Converter the source builds for `degF`. -/
def convDegF : Converter :=
  (Converter.mk? (some "degF")).toOption.getD ⟨[], [], [], 1, 0⟩

theorem splitOnC_ne_nil (sep : Char) (s : Str) : splitOnC sep s ≠ [] := by
  induction s with
  | nil => simp [splitOnC]
  | cons c cs ih =>
    simp only [splitOnC]
    split
    · simp
    · cases h : splitOnC sep cs <;> simp

theorem splitOnC_eq_self (sep : Char) (s : Str) (h : ∀ c ∈ s, c ≠ sep) :
    splitOnC sep s = [s] := by
  induction s with
  | nil => rfl
  | cons c cs ih =>
    have hc : c ≠ sep := h c (by simp)
    have ih' := ih (fun d hd => h d (by simp [hd]))
    simp [splitOnC, hc, ih']

theorem splitOnC_single (sep : Char) (s x : Str) (h : splitOnC sep s = [x]) :
    s = x ∧ ∀ c ∈ s, c ≠ sep := by
  induction s generalizing x with
  | nil =>
    simp [splitOnC] at h
    subst h
    simp
  | cons c cs ih =>
    simp only [splitOnC] at h
    by_cases hc : c = sep
    · rw [if_pos hc] at h
      have := splitOnC_ne_nil sep cs
      simp at h
      exact absurd h.2 this
    · rw [if_neg hc] at h
      cases hcs : splitOnC sep cs with
      | nil => exact absurd hcs (splitOnC_ne_nil sep cs)
      | cons p t =>
        rw [hcs] at h
        simp at h
        obtain ⟨hx, ht⟩ := h
        obtain ⟨hcsx, hfree⟩ := ih p (by rw [hcs, ht])
        constructor
        · rw [← hx, hcsx]
        · intro d hd
          rcases List.mem_cons.mp hd with h1 | h2
          · rw [h1]; exact hc
          · exact hfree d h2

theorem splitOnC_pair (sep : Char) (s n e : Str)
    (h : splitOnC sep s = [n, e]) :
    s = n ++ sep :: e ∧ ∀ c ∈ n, c ≠ sep := by
  induction s generalizing n with
  | nil => simp [splitOnC] at h
  | cons c cs ih =>
    simp only [splitOnC] at h
    by_cases hc : c = sep
    · rw [if_pos hc] at h
      simp at h
      obtain ⟨hn, hcs⟩ := h
      have h2 := splitOnC_single sep cs e (by rw [hcs])
      subst hc
      subst hn
      constructor
      · simp [h2.1]
      · simp
    · rw [if_neg hc] at h
      cases hcs : splitOnC sep cs with
      | nil => exact absurd hcs (splitOnC_ne_nil sep cs)
      | cons p t =>
        rw [hcs] at h
        simp at h
        obtain ⟨hn, ht⟩ := h
        obtain ⟨hseq, hfree⟩ := ih p (by rw [hcs, ht])
        constructor
        · rw [← hn, hseq]; simp
        · intro d hd
          rw [← hn] at hd
          rcases List.mem_cons.mp hd with h1 | h2
          · rw [h1]; exact hc
          · exact hfree d h2

theorem mem_joinSpC (ts : List Str) (c : Char) (h : c ∈ joinSpC ts) :
    c = ' ' ∨ ∃ t ∈ ts, c ∈ t := by
  induction ts with
  | nil => simp [joinSpC] at h
  | cons t rest ih =>
    cases rest with
    | nil =>
      simp only [joinSpC] at h
      exact Or.inr ⟨t, by simp, h⟩
    | cons t2 rest2 =>
      simp only [joinSpC] at h
      rcases List.mem_append.mp h with h1 | h2
      · exact Or.inr ⟨t, by simp, h1⟩
      · rcases List.mem_cons.mp h2 with h3 | h4
        · exact Or.inl h3
        · rcases ih h4 with h5 | ⟨t', ht', hc'⟩
          · exact Or.inl h5
          · exact Or.inr ⟨t', by simp [ht'], hc'⟩

theorem wsFreeB_append (a b : Str) :
    wsFreeB (a ++ b) = (wsFreeB a && wsFreeB b) := by
  simp [wsFreeB, List.all_append]

theorem braceFreeB_append (a b : Str) :
    braceFreeB (a ++ b) = (braceFreeB a && braceFreeB b) := by
  simp [braceFreeB, List.all_append]

theorem wsFreeB_cons (c : Char) (s : Str) :
    wsFreeB (c :: s) = (!(isPyWs c) && wsFreeB s) := by
  simp [wsFreeB]

theorem splitWsGo_append (t : Str) (ht : wsFreeB t = true) (acc s : Str) :
    splitWsGo acc (t ++ s) = splitWsGo (t.reverse ++ acc) s := by
  induction t generalizing acc with
  | nil => rfl
  | cons c t' ih =>
    simp only [wsFreeB, List.all_cons, Bool.and_eq_true, Bool.not_eq_true'] at ht
    have ih' := ih (by simp [wsFreeB, ht.2]) (c :: acc)
    have step : splitWsGo acc ((c :: t') ++ s) = splitWsGo (c :: acc) (t' ++ s) := by
      simp only [List.cons_append, splitWsGo]
      rw [if_neg (by simp [ht.1])]
      rfl
    rw [step, ih']
    simp [List.append_assoc]

theorem splitWsC_joinSpC (ts : List Str) (hne : ∀ t ∈ ts, t ≠ [])
    (hws : ∀ t ∈ ts, wsFreeB t = true) :
    splitWsC (joinSpC ts) = ts := by
  induction ts with
  | nil => rfl
  | cons t rest ih =>
    have htne : t ≠ [] := hne t (by simp)
    have htws := hws t (by simp)
    cases rest with
    | nil =>
      show splitWsGo [] (joinSpC [t]) = [t]
      have : joinSpC [t] = t ++ [] := by simp [joinSpC]
      rw [this, splitWsGo_append t htws]
      simp only [splitWsGo]
      rw [if_neg (by simpa using htne)]
      simp
    | cons t2 rest2 =>
      show splitWsGo [] (joinSpC (t :: t2 :: rest2)) = t :: t2 :: rest2
      have hj : joinSpC (t :: t2 :: rest2) = t ++ ' ' :: joinSpC (t2 :: rest2) := rfl
      rw [hj, splitWsGo_append t htws]
      have hsp : isPyWs ' ' = true := rfl
      simp only [splitWsGo, hsp, if_true]
      rw [if_neg (by simpa using htne)]
      simp only [List.append_nil, List.reverse_reverse]
      have ihh := ih (fun x hx => hne x (by simp [hx]))
        (fun x hx => hws x (by simp [hx]))
      simp only [splitWsC] at ihh
      rw [ihh]

theorem dropWhile_eq_self_of_all (p : Char → Bool) (s : Str)
    (h : ∀ c ∈ s, p c = false) : s.dropWhile p = s := by
  cases s with
  | nil => rfl
  | cons c cs => exact List.dropWhile_cons_of_neg (by simp [h c (by simp)])

theorem pyStrip_of_wsFree (s : Str) (h : wsFreeB s = true) : pyStrip s = s := by
  simp only [wsFreeB, List.all_eq_true, Bool.not_eq_true'] at h
  unfold pyStrip
  rw [dropWhile_eq_self_of_all _ s (fun c hc => h c hc),
      dropWhile_eq_self_of_all _ s.reverse (fun c hc => h c (List.mem_reverse.mp hc)),
      List.reverse_reverse]

theorem pyStrip_append_space (n : Str) (hn : n ≠ []) (h : wsFreeB n = true) :
    pyStrip (n ++ [' ']) = n := by
  simp only [wsFreeB, List.all_eq_true, Bool.not_eq_true'] at h
  unfold pyStrip
  have h1 : (n ++ [' ']).dropWhile isPyWs = n ++ [' '] := by
    cases n with
    | nil => exact absurd rfl hn
    | cons c cs =>
      exact List.dropWhile_cons_of_neg (by simp [h c (by simp)])
  rw [h1]
  have h2 : (n ++ [' ']).reverse = ' ' :: n.reverse := by simp
  rw [h2]
  have hsp : isPyWs ' ' = true := rfl
  rw [List.dropWhile_cons_of_pos (by simp [hsp]),
      dropWhile_eq_self_of_all _ n.reverse
        (fun c hc => h c (List.mem_reverse.mp hc)),
      List.reverse_reverse]

theorem isPrefixOf_append_self (pat b : Str) :
    pat.isPrefixOf (pat ++ b) = true := by
  induction pat with
  | nil => simp [List.isPrefixOf]
  | cons p ps ih => simp [List.isPrefixOf, ih]

theorem replaceAllGo_cons (pat repl : Str) (c : Char) (cs : Str) (f : Nat) :
    replaceAllGo pat repl (f + 1) (c :: cs) =
      if pat.isPrefixOf (c :: cs) then
        repl ++ replaceAllGo pat repl f ((c :: cs).drop (max pat.length 1))
      else c :: replaceAllGo pat repl f cs := rfl

theorem replaceAllGo_step (pat repl : Str) (c : Char) (cs : Str) (f : Nat)
    (h : pat.isPrefixOf (c :: cs) = false) :
    replaceAllGo pat repl (f + 1) (c :: cs) =
      c :: replaceAllGo pat repl f cs := by
  rw [replaceAllGo_cons, if_neg (by simp [h])]

theorem notPrefix_of_head_ne (p : Char) (ps : Str) (c : Char) (cs : Str)
    (h : c ≠ p) : (p :: ps).isPrefixOf (c :: cs) = false := by
  have : (p == c) = false := by
    simp
    exact fun he => h he.symm
  simp [List.isPrefixOf, this]

theorem replaceAllGo_no_head (p : Char) (ps repl : Str) (s : Str)
    (h : ∀ c ∈ s, c ≠ p) (fuel : Nat) :
    replaceAllGo (p :: ps) repl fuel s = s := by
  induction s generalizing fuel with
  | nil => cases fuel <;> rfl
  | cons c cs ih =>
    cases fuel with
    | zero => rfl
    | succ f =>
      rw [replaceAllGo_step _ _ _ _ _ (notPrefix_of_head_ne p ps c cs (h c (by simp))),
        ih (fun d hd => h d (by simp [hd])) f]

theorem replaceAllGo_skip (p : Char) (ps repl : Str) (a b : Str)
    (ha : ∀ c ∈ a, c ≠ p) :
    ∀ fuel, a.length ≤ fuel →
    replaceAllGo (p :: ps) repl fuel (a ++ b) =
      a ++ replaceAllGo (p :: ps) repl (fuel - a.length) b := by
  induction a with
  | nil => intro fuel _; simp
  | cons c a' ih =>
    intro fuel hf
    cases fuel with
    | zero => simp at hf
    | succ f =>
      have : (c :: a') ++ b = c :: (a' ++ b) := rfl
    
      rw [this, replaceAllGo_step _ _ _ _ _
          (notPrefix_of_head_ne p ps c (a' ++ b) (ha c (by simp))),
        ih (fun d hd => ha d (by simp [hd])) f (by simp only [List.length_cons] at hf; omega)]
      simp only [List.length_cons, Nat.succ_sub_succ, List.cons_append]

theorem replaceAllGo_head_match (pat repl b : Str) (hp : pat ≠ []) (f : Nat) :
    replaceAllGo pat repl (f + 1) (pat ++ b) =
      repl ++ replaceAllGo pat repl f b := by
  cases pat with
  | nil => exact absurd rfl hp
  | cons p ps =>
    have hshape : (p :: ps) ++ b = p :: (ps ++ b) := rfl
    have hpre : (p :: ps).isPrefixOf (p :: (ps ++ b)) = true := by
      have := isPrefixOf_append_self (p :: ps) b
      simpa using this
    rw [hshape, replaceAllGo_cons, if_pos (by simp [hpre])]
    have hmax : max (p :: ps).length 1 = (p :: ps).length :=
      Nat.max_eq_left (by simp only [List.length_cons]; omega)
    rw [hmax]
    have hdrop : (p :: (ps ++ b)).drop (p :: ps).length = b := by
      simpa using List.drop_left (p :: ps) b
    rw [hdrop]

theorem braceFreeB_all (s : Str) (h : braceFreeB s = true) :
    ∀ c ∈ s, c ≠ '\x7b' ∧ c ≠ '\x7d' := by
  intro c hc
  simp only [braceFreeB, List.all_eq_true] at h
  have := h c hc
  simp at this
  exact this

theorem collapseBraces_id (s : Str) (h : braceFreeB s = true) :
    collapseBraces s = s := by
  unfold collapseBraces replaceAll
  rw [replaceAllGo_no_head '\x7b' _ _ s (fun c hc => (braceFreeB_all s h c hc).1),
      replaceAllGo_no_head '\x7d' _ _ s (fun c hc => (braceFreeB_all s h c hc).2)]

theorem replaceAllGo_fuel_aux (pat repl : Str) :
    ∀ (k : Nat) (s : Str), s.length ≤ k → ∀ f1 f2, s.length ≤ f1 →
      s.length ≤ f2 → replaceAllGo pat repl f1 s = replaceAllGo pat repl f2 s := by
  intro k
  induction k with
  | zero =>
    intro s hs f1 f2 _ _
    have : s = [] := List.length_eq_zero.mp (Nat.le_zero.mp hs)
    subst this
    cases f1 <;> cases f2 <;> rfl
  | succ k ih =>
    intro s hs f1 f2 h1 h2
    cases s with
    | nil => cases f1 <;> cases f2 <;> rfl
    | cons c cs =>
      have hl : cs.length + 1 ≤ k + 1 := by simpa using hs
      cases f1 with
      | zero => simp at h1
      | succ g1 =>
        cases f2 with
        | zero => simp at h2
        | succ g2 =>
          rw [replaceAllGo_cons, replaceAllGo_cons]
          by_cases hpre : pat.isPrefixOf (c :: cs) = true
          · rw [if_pos (by simp [hpre]), if_pos (by simp [hpre])]
            have hd : ((c :: cs).drop (max pat.length 1)).length ≤ k := by
              simp only [List.length_drop, List.length_cons]
              have : 1 ≤ max pat.length 1 := Nat.le_max_right _ _
              omega
            rw [ih _ hd g1 g2
              (by simp only [List.length_drop, List.length_cons] at hd ⊢
                  have : 1 ≤ max pat.length 1 := Nat.le_max_right _ _
                  simp only [List.length_cons] at h1
                  omega)
              (by simp only [List.length_drop, List.length_cons]
                  have : 1 ≤ max pat.length 1 := Nat.le_max_right _ _
                  simp only [List.length_cons] at h2
                  omega)]
          · rw [if_neg (by simp [hpre]), if_neg (by simp [hpre])]
            have hcs : cs.length ≤ k := by simp only [List.length_cons] at hs; omega
            rw [ih cs hcs g1 g2
              (by simp only [List.length_cons] at h1; omega)
              (by simp only [List.length_cons] at h2; omega)]

theorem replaceAllGo_fuel (pat repl : Str) (s : Str) (f1 f2 : Nat)
    (h1 : s.length ≤ f1) (h2 : s.length ≤ f2) :
    replaceAllGo pat repl f1 s = replaceAllGo pat repl f2 s :=
  replaceAllGo_fuel_aux pat repl s.length s (le_refl _) f1 f2 h1 h2

theorem replaceAll_skip (p : Char) (ps repl a b : Str)
    (ha : ∀ c ∈ a, c ≠ p) :
    replaceAll (p :: ps) repl (a ++ b) = a ++ replaceAll (p :: ps) repl b := by
  unfold replaceAll
  rw [replaceAllGo_skip p ps repl a b ha (a ++ b).length (by simp)]
  simp

theorem replaceAll_head (pat repl b : Str) (hp : pat ≠ []) :
    replaceAll pat repl (pat ++ b) = repl ++ replaceAll pat repl b := by
  unfold replaceAll
  have hlen : (pat ++ b).length = (pat.length - 1 + b.length) + 1 := by
    have : 1 ≤ pat.length := by
      cases pat with
      | nil => exact absurd rfl hp
      | cons x xs => simp
    simp only [List.length_append]
    omega
  rw [hlen, replaceAllGo_head_match pat repl b hp]
  rw [replaceAllGo_fuel pat repl b _ b.length (by omega) (le_refl _)]

theorem replaceAll_of_free (p : Char) (ps repl s : Str)
    (h : ∀ c ∈ s, c ≠ p) :
    replaceAll (p :: ps) repl s = s :=
  replaceAllGo_no_head p ps repl s h s.length

theorem replaceAll_step (pat repl : Str) (c : Char) (cs : Str)
    (h : pat.isPrefixOf (c :: cs) = false) :
    replaceAll pat repl (c :: cs) = c :: replaceAll pat repl cs := by
  unfold replaceAll
  simp only [List.length_cons]
  rw [replaceAllGo_step pat repl c cs cs.length h]

theorem replaceAll_nil (pat repl : Str) : replaceAll pat repl [] = [] := rfl

theorem getLast?_decomp (s : Str) (l : Char) (h : s.getLast? = some l) :
    s = s.dropLast ++ [l] := by
  induction s with
  | nil => simp at h
  | cons c cs ih =>
    cases cs with
    | nil =>
      simp only [List.getLast?_singleton, Option.some.injEq] at h
      simp [h]
    | cons c2 cs2 =>
      rw [List.getLast?_cons_cons] at h
      have := ih h
      rw [List.dropLast_cons₂, List.cons_append, ← this]

theorem collapseBraces_double (n inner : Str)
    (hn : braceFreeB n = true) (hi : braceFreeB inner = true) :
    collapseBraces
        (n ++ '^' :: '\x7b' :: '\x7b' :: (inner ++ ['\x7d', '\x7d'])) =
      n ++ '^' :: '\x7b' :: (inner ++ ['\x7d']) := by
  have hnf := braceFreeB_all n hn
  have hif := braceFreeB_all inner hi
  unfold collapseBraces
  have e1 : n ++ '^' :: '\x7b' :: '\x7b' :: (inner ++ ['\x7d', '\x7d'])
      = (n ++ ['^']) ++ (['\x7b', '\x7b'] ++ (inner ++ ['\x7d', '\x7d'])) := by
    simp
  rw [e1, replaceAll_skip '\x7b' ['\x7b'] ['\x7b'] (n ++ ['^'])
      (['\x7b', '\x7b'] ++ (inner ++ ['\x7d', '\x7d'])) (by
    intro c hc
    rcases List.mem_append.mp hc with h1 | h2
    · exact (hnf c h1).1
    · simp at h2; simp [h2])]
  rw [show ('\x7b' :: ['\x7b'] : Str) = ['\x7b', '\x7b'] from rfl,
    replaceAll_head ['\x7b', '\x7b'] ['\x7b'] (inner ++ ['\x7d', '\x7d'])
      (by simp)]
  rw [replaceAll_of_free '\x7b' ['\x7b'] ['\x7b'] (inner ++ ['\x7d', '\x7d'])
      (by
    intro c hc
    rcases List.mem_append.mp hc with h1 | h2
    · exact (hif c h1).1
    · simp at h2; simp [h2])]
  have e2 : (n ++ ['^']) ++ (['\x7b'] ++ (inner ++ ['\x7d', '\x7d']))
      = ((n ++ ['^', '\x7b']) ++ inner) ++ (['\x7d', '\x7d'] ++ []) := by
    simp
  rw [e2, replaceAll_skip '\x7d' ['\x7d'] ['\x7d'] ((n ++ ['^', '\x7b']) ++ inner)
      (['\x7d', '\x7d'] ++ []) (by
    intro c hc
    rcases List.mem_append.mp hc with h1 | h2
    · rcases List.mem_append.mp h1 with h3 | h4
      · exact (hnf c h3).2
      · simp at h4
        rcases h4 with h5 | h5 <;> simp [h5]
    · exact (hif c h2).2)]
  rw [replaceAll_head ['\x7d', '\x7d'] ['\x7d'] [] (by simp), replaceAll_nil]
  simp

theorem collapseBraces_single (n b : Str)
    (hn : braceFreeB n = true) (hb : braceFreeB b = true) :
    collapseBraces (n ++ '^' :: '\x7b' :: (b ++ ['\x7d'])) =
      n ++ '^' :: '\x7b' :: (b ++ ['\x7d']) := by
  have hnf := braceFreeB_all n hn
  have hbf := braceFreeB_all b hb
  unfold collapseBraces
  have e1 : n ++ '^' :: '\x7b' :: (b ++ ['\x7d'])
      = (n ++ ['^']) ++ ('\x7b' :: (b ++ ['\x7d'])) := by simp
  rw [e1, replaceAll_skip '\x7b' ['\x7b'] ['\x7b'] (n ++ ['^'])
      ('\x7b' :: (b ++ ['\x7d'])) (by
    intro c hc
    rcases List.mem_append.mp hc with h1 | h2
    · exact (hnf c h1).1
    · simp at h2; simp [h2])]
  rw [replaceAll_step ['\x7b', '\x7b'] ['\x7b'] '\x7b' (b ++ ['\x7d']) (by
    cases hbv : b with
    | nil => simp [List.isPrefixOf]
    | cons x xs =>
      have hx : x ≠ '\x7b' := (hbf x (by simp [hbv])).1
      simp [List.isPrefixOf]
      intro h
      exact absurd h.symm hx)]
  rw [replaceAll_of_free '\x7b' ['\x7b'] ['\x7b'] (b ++ ['\x7d']) (by
    intro c hc
    rcases List.mem_append.mp hc with h1 | h2
    · exact (hbf c h1).1
    · simp at h2; simp [h2])]
  have e2 : (n ++ ['^']) ++ ('\x7b' :: (b ++ ['\x7d']))
      = ((n ++ ['^', '\x7b']) ++ b) ++ ['\x7d'] := by simp
  rw [e2, replaceAll_skip '\x7d' ['\x7d'] ['\x7d'] ((n ++ ['^', '\x7b']) ++ b)
      ['\x7d'] (by
    intro c hc
    rcases List.mem_append.mp hc with h1 | h2
    · rcases List.mem_append.mp h1 with h3 | h4
      · exact (hnf c h3).2
      · simp at h4
        rcases h4 with h5 | h5 <;> simp [h5]
    · exact (hbf c h2).2)]
  rw [replaceAll_step ['\x7d', '\x7d'] ['\x7d'] '\x7d' [] (by
      simp [List.isPrefixOf])]
  simp
  exact replaceAll_nil _ _

theorem collapseBraces_neg_braced (n inner : Str)
    (hn : braceFreeB n = true) (hi : braceFreeB inner = true) :
    collapseBraces
        (n ++ '^' :: '\x7b' :: '-' :: '\x7b' :: (inner ++ ['\x7d', '\x7d'])) =
      n ++ '^' :: '\x7b' :: '-' :: '\x7b' :: (inner ++ ['\x7d']) := by
  have hnf := braceFreeB_all n hn
  have hif := braceFreeB_all inner hi
  unfold collapseBraces
  have e1 : n ++ '^' :: '\x7b' :: '-' :: '\x7b' :: (inner ++ ['\x7d', '\x7d'])
      = (n ++ ['^']) ++
        ('\x7b' :: '-' :: '\x7b' :: (inner ++ ['\x7d', '\x7d'])) := by
    simp
  rw [e1, replaceAll_skip '\x7b' ['\x7b'] ['\x7b'] (n ++ ['^'])
      ('\x7b' :: '-' :: '\x7b' :: (inner ++ ['\x7d', '\x7d'])) (by
    intro c hc
    rcases List.mem_append.mp hc with h1 | h2
    · exact (hnf c h1).1
    · simp at h2; simp [h2])]
  rw [replaceAll_step ['\x7b', '\x7b'] ['\x7b'] '\x7b'
      ('-' :: '\x7b' :: (inner ++ ['\x7d', '\x7d'])) (by
    simp [List.isPrefixOf])]
  rw [replaceAll_step ['\x7b', '\x7b'] ['\x7b'] '-'
      ('\x7b' :: (inner ++ ['\x7d', '\x7d'])) (by
    simp [List.isPrefixOf])]
  rw [replaceAll_step ['\x7b', '\x7b'] ['\x7b'] '\x7b'
      (inner ++ ['\x7d', '\x7d']) (by
    cases hbv : inner with
    | nil => simp [List.isPrefixOf]
    | cons x xs =>
      have hx : x ≠ '\x7b' := (hif x (by simp [hbv])).1
      simp [List.isPrefixOf]
      intro h
      exact absurd h.symm hx)]
  rw [replaceAll_of_free '\x7b' ['\x7b'] ['\x7b'] (inner ++ ['\x7d', '\x7d']) (by
    intro c hc
    rcases List.mem_append.mp hc with h1 | h2
    · exact (hif c h1).1
    · simp at h2; simp [h2])]
  have e2 : (n ++ ['^']) ++
        ('\x7b' :: '-' :: '\x7b' :: (inner ++ ['\x7d', '\x7d']))
      = ((n ++ ['^', '\x7b', '-', '\x7b']) ++ inner) ++
        (['\x7d', '\x7d'] ++ []) := by
    simp
  rw [e2, replaceAll_skip '\x7d' ['\x7d'] ['\x7d']
      ((n ++ ['^', '\x7b', '-', '\x7b']) ++ inner) (['\x7d', '\x7d'] ++ []) (by
    intro c hc
    rcases List.mem_append.mp hc with h1 | h2
    · rcases List.mem_append.mp h1 with h3 | h4
      · exact (hnf c h3).2
      · simp at h4
        rcases h4 with h5 | h5 | h5 | h5 <;> simp [h5]
    · exact (hif c h2).2)]
  rw [replaceAll_head ['\x7d', '\x7d'] ['\x7d'] [] (by simp), replaceAll_nil]
  simp

theorem tokOf_canon (t : Str) (h : isCanonTok t = true) : tokOf [] t = t := by
  simp only [isCanonTok, Bool.and_eq_true] at h
  obtain ⟨⟨⟨hne, hws⟩, _⟩, hshape⟩ := h
  have hne' : t ≠ [] := by simpa using hne
  cases hs : splitOnC '^' t with
  | nil => exact absurd hs (splitOnC_ne_nil _ _)
  | cons n rest =>
    cases rest with
    | nil =>
      rw [hs] at hshape
      simp only at hshape
      obtain ⟨hteq, _⟩ := splitOnC_single '^' t n hs
      subst hteq
      unfold tokOf
      rw [hs]
      simp only [reduceCtorEq, if_false]
      rw [pyStrip_append_space t hne' hws, collapseBraces_id t hshape]
    | cons e rest2 =>
      cases rest2 with
      | cons x xs =>
        rw [hs] at hshape
        simp at hshape
      | nil =>
        rw [hs] at hshape
        simp only [Bool.and_eq_true] at hshape
        obtain ⟨hbn, hsh⟩ := hshape
        cases e with
        | nil => simp at hsh
        | cons c rest =>
          cases hl : (c :: rest).getLast? with
          | none => simp at hl
          | some l =>
            rw [hl] at hsh
            simp only [Bool.and_eq_true, beq_iff_eq] at hsh
            obtain ⟨⟨hc, hlv⟩, hinner⟩ := hsh
            subst hc
            subst hlv
            cases rest with
            | nil => simp at hl
            | cons r rs =>
              rw [List.getLast?_cons_cons] at hl
              have hdec := getLast?_decomp (r :: rs) '\x7d' hl
              obtain ⟨hteq, _⟩ := splitOnC_pair '^' t n ('\x7b' :: r :: rs) hs
              have hwsplit : wsFreeB n = true ∧
                  wsFreeB ('^' :: '\x7b' :: r :: rs) = true := by
                have h1 := hws
                rw [hteq, wsFreeB_append] at h1
                simpa using h1
              have hwsrs : wsFreeB (r :: rs) = true := by
                have h2 := hwsplit.2
                simp only [wsFreeB, List.all_cons, Bool.and_eq_true] at h2 ⊢
                exact ⟨h2.2.2.1, h2.2.2.2⟩
              have hwsinner : wsFreeB (r :: rs).dropLast = true := by
                have h3 := hwsrs
                rw [hdec, wsFreeB_append] at h3
                simp only [Bool.and_eq_true] at h3
                exact h3.1
              have hstep : ∀ (c : Char) (s : Str), isPyWs c = false →
                  wsFreeB s = true → wsFreeB (c :: s) = true := by
                intro c s hc hs2
                simp only [wsFreeB, List.all_cons, Bool.and_eq_true, hc]
                constructor
                · simp [hc]
                · simpa [wsFreeB] using hs2
              unfold tokOf
              rw [hs]
              simp only [List.nil_append]
              have hshape2 : n ++ '^' :: '\x7b' :: ('\x7b' :: r :: rs ++ ['\x7d'])
                  = n ++ '^' :: '\x7b' :: '\x7b' ::
                    ((r :: rs).dropLast ++ ['\x7d', '\x7d']) := by
                conv_lhs => rw [hdec]
                simp
              rw [hshape2]
              have hwsall : wsFreeB (n ++ '^' :: '\x7b' :: '\x7b' ::
                  ((r :: rs).dropLast ++ ['\x7d', '\x7d'])) = true := by
                rw [wsFreeB_append]
                simp only [Bool.and_eq_true]
                refine ⟨hwsplit.1, ?_⟩
                refine hstep _ _ (by rfl) (hstep _ _ (by rfl)
                  (hstep _ _ (by rfl) ?_))
                rw [wsFreeB_append]
                simp only [Bool.and_eq_true]
                exact ⟨hwsinner, by rfl⟩
              rw [pyStrip_of_wsFree _ hwsall,
                collapseBraces_double n (r :: rs).dropLast hbn hinner]
              rw [hteq]
              conv_rhs => rw [hdec]

theorem filterMap_tokOf_canon (ts : List String)
    (h : ∀ t ∈ ts, isCanonTok t.data = true) :
    (ts.map (·.data)).filterMap
      (fun item => if item = [] then none
        else some (⟨tokOf [] item⟩ : String)) = ts := by
  induction ts with
  | nil => rfl
  | cons t rest ih =>
    have ht := h t (by simp)
    have hne : t.data ≠ [] := by
      simp only [isCanonTok, Bool.and_eq_true] at ht
      simpa using ht.1.1.1
    simp only [List.map_cons, List.filterMap_cons, if_neg hne]
    rw [tokOf_canon t.data ht]
    have heta : (⟨t.data⟩ : String) = t := rfl
    rw [heta, ih (fun x hx => h x (by simp [hx]))]

theorem assembleTokens_join (ts : List String)
    (h : ∀ t ∈ ts, isCanonTok t.data = true) :
    assembleTokens (joinSpC (ts.map (·.data))) = ts := by
  have hslash : ∀ c ∈ joinSpC (ts.map (·.data)), c ≠ '/' := by
    intro c hc
    rcases mem_joinSpC _ c hc with h1 | ⟨t', ht', hc'⟩
    · rw [h1]; decide
    · obtain ⟨t, ht, rfl⟩ := List.mem_map.mp ht'
      have ht2 := h t ht
      simp only [isCanonTok, Bool.and_eq_true] at ht2
      have hsf := ht2.1.2
      simp only [slashFreeB, List.all_eq_true] at hsf
      have := hsf c hc'
      simpa using this
  unfold assembleTokens
  rw [splitOnC_eq_self '/' _ hslash]
  have henum : ([joinSpC (ts.map (·.data))]).enum
      = [(0, joinSpC (ts.map (·.data)))] := rfl
  rw [henum]
  simp only [List.map_cons, List.map_nil, List.flatten, List.append_nil]
  have hsign : (if 0 < (0 : Nat) then (['-'] : Str) else []) = [] := rfl
  rw [hsign]
  have hne : ∀ t ∈ ts.map (·.data), t ≠ [] := by
    intro x hx
    obtain ⟨t, ht, rfl⟩ := List.mem_map.mp hx
    have ht2 := h t ht
    simp only [isCanonTok, Bool.and_eq_true] at ht2
    simpa using ht2.1.1.1
  have hws : ∀ t ∈ ts.map (·.data), wsFreeB t = true := by
    intro x hx
    obtain ⟨t, ht, rfl⟩ := List.mem_map.mp hx
    have ht2 := h t ht
    simp only [isCanonTok, Bool.and_eq_true] at ht2
    exact ht2.1.1.2
  rw [splitWsC_joinSpC (ts.map (·.data)) hne hws]
  exact filterMap_tokOf_canon ts h

theorem getScaleGo_ok : ∀ (l : List (DTable × String)) (b : ℚ × ℚ) (S O : ℚ),
    getScaleGo b l = .ok (S, O) →
    S = b.1 * (l.map (fun p => (lookupPair p).1)).prod ∧
    O = b.2 + (l.map (fun p => (lookupPair p).2)).sum := by
  intro l
  induction l with
  | nil =>
    intro b S O h
    simp only [getScaleGo, Except.ok.injEq] at h
    subst h
    simp
  | cons p rest ih =>
    intro b S O h
    obtain ⟨m, u⟩ := p
    simp only [getScaleGo] at h
    cases hd : dget m u with
    | none => rw [hd] at h; simp at h
    | some cv =>
      rw [hd] at h
      have hrec := ih _ S O h
      constructor
      · rw [hrec.1]
        simp only [List.map_cons, List.prod_cons, lookupPair, hd, Option.getD_some]
        ring
      · rw [hrec.2]
        simp only [List.map_cons, List.sum_cons, lookupPair, hd, Option.getD_some]
        ring

theorem getScaleGo_error : ∀ (l : List (DTable × String)) (b : ℚ × ℚ) (e : PyErr),
    getScaleGo b l = .error e →
    e = .valueError ∧ ∃ p ∈ l, dget p.1 p.2 = none := by
  intro l
  induction l with
  | nil => intro b e h; simp [getScaleGo] at h
  | cons p rest ih =>
    intro b e h
    obtain ⟨m, u⟩ := p
    simp only [getScaleGo] at h
    cases hd : dget m u with
    | none =>
      rw [hd] at h
      simp only [Except.error.injEq] at h
      exact ⟨h.symm, ⟨(m, u), by simp, hd⟩⟩
    | some cv =>
      rw [hd] at h
      obtain ⟨he, q, hq, hqn⟩ := ih _ e h
      exact ⟨he, q, by simp [hq], hqn⟩

theorem getScaleGo_error_of_none :
    ∀ (l : List (DTable × String)) (b : ℚ × ℚ),
    (∃ p ∈ l, dget p.1 p.2 = none) →
    getScaleGo b l = .error .valueError := by
  intro l
  induction l with
  | nil => intro b h; simp at h
  | cons p rest ih =>
    intro b h
    obtain ⟨m, u⟩ := p
    simp only [getScaleGo]
    cases hd : dget m u with
    | none => rfl
    | some cv =>
      obtain ⟨q, hq, hqn⟩ := h
      rcases List.mem_cons.mp hq with h1 | h2
      · rw [h1] at hqn; simp only at hqn; rw [hqn] at hd; simp at hd
      · exact ih _ ⟨q, h2, hqn⟩

theorem scale_eq_match (c : Converter) (ts : String) (v : ℚ) :
    c.scale ts v =
      match _get_scale_for_units c.scalemap (standardize_units ts) with
      | .ok base => .ok (c._scale_with_offset v base)
      | .error e => .error e := by
  unfold Converter.scale
  cases h : _get_scale_for_units c.scalemap (standardize_units ts) <;>
    simp [h, Except.bind]

theorem mk?_ok_fields (u : String) (c : Converter)
    (h : Converter.mk? (some u) none = .ok c) :
    c._units = standardize_units u ∧
    c.scalemap = c.dimension.map (fun d => (dimsGet d).getD dimensionless_dim) ∧
    _get_scale_for_units c.scalemap (standardize_units u)
      = .ok (c.scalebase, c.scaleoffset) := by
  unfold Converter.mk? at h
  simp only [Option.getD_some] at h
  cases hd : (standardize_units u).mapM
      (resolveDimension (joinUnits (standardize_units u))) with
  | error e =>
    rw [hd] at h
    simp only [Bind.bind, Except.bind] at h
    simp at h
  | ok dims =>
    rw [hd] at h
    simp only [Bind.bind, Except.bind, Functor.map, Except.map] at h
    cases hb : _get_scale_for_units
        (dims.map (fun d => (dimsGet d).getD dimensionless_dim))
        (standardize_units u) with
    | error e =>
      rw [hb] at h
      simp at h
    | ok base =>
      rw [hb] at h
      simp only [Pure.pure, Except.pure, Except.ok.injEq] at h
      subst h
      simp [hb]

theorem splitOnC_append_sep (sep : Char) (a b : Str)
    (ha : ∀ c ∈ a, c ≠ sep) :
    splitOnC sep (a ++ sep :: b) = a :: splitOnC sep b := by
  induction a with
  | nil => simp [splitOnC]
  | cons c a' ih =>
    have hc : c ≠ sep := ha c (by simp)
    have ih' := ih (fun d hd => ha d (by simp [hd]))
    simp only [List.cons_append, splitOnC, hc, if_false, List.append_eq, ih']

/-- C2: for every `Converter` and target-units string whose paired tokens all
resolve, the result is `(value + combined_target_offset) * source_scale /
target_scale - source_offset`, where the combined scale is the product of the
paired factors' scales and the combined offset the sum of their offsets (a
plain scale contributing offset `0`); with all offsets zero it reduces to
plain proportional scaling. -/
theorem C2_conversion_formula (c : Converter) (ts : String) (v S O : ℚ)
    (h : _get_scale_for_units c.scalemap (standardize_units ts) = .ok (S, O)) :
    S = ((c.scalemap.zip (standardize_units ts)).map
        (fun p => (lookupPair p).1)).prod ∧
    O = ((c.scalemap.zip (standardize_units ts)).map
        (fun p => (lookupPair p).2)).sum ∧
    c.scale ts v = .ok ((v + O) * c.scalebase / S - c.scaleoffset) ∧
    (O = 0 → c.scaleoffset = 0 → c.scale ts v = .ok (v * c.scalebase / S)) := by
  have hgo := getScaleGo_ok (c.scalemap.zip (standardize_units ts)) (1, 0) S O
    (by unfold _get_scale_for_units at h; exact h)
  have hS : S = ((c.scalemap.zip (standardize_units ts)).map
      (fun p => (lookupPair p).1)).prod := by
    rw [hgo.1]; ring
  have hO : O = ((c.scalemap.zip (standardize_units ts)).map
      (fun p => (lookupPair p).2)).sum := by
    rw [hgo.2]; ring
  have hscale : c.scale ts v
      = .ok ((v + O) * c.scalebase / S - c.scaleoffset) := by
    rw [scale_eq_match, h]
    rfl
  refine ⟨hS, hO, hscale, ?_⟩
  intro hO0 hoff
  rw [hscale, hO0, hoff]
  norm_num

set_option maxRecDepth 400000 in
set_option maxHeartbeats 2000000 in
unseal Rat.mul Rat.inv Rat.add Rat.sub in
/-- C4: `convert` raises the incompatible-units `ValueError` exactly when a
paired normalized target token is absent from the resolved dimension table;
converting `5.0` from `m` to `degC` raises; a successful conversion always
returns the affine formula value, never the unconverted input by fallback. -/
theorem C4_incompatible_units :
    ((Converter.mk? (some "m")).bind (fun c => c.scale "degC" (5 : ℚ))
        = .error .valueError) ∧
    (∀ (c : Converter) (ts : String) (v : ℚ),
      (c.scale ts v = .error .valueError ↔
        ∃ p ∈ c.scalemap.zip (standardize_units ts), dget p.1 p.2 = none)) ∧
    (∀ (c : Converter) (ts : String) (v r : ℚ), c.scale ts v = .ok r →
      ∃ S O : ℚ, _get_scale_for_units c.scalemap (standardize_units ts)
          = .ok (S, O) ∧ r = (v + O) * c.scalebase / S - c.scaleoffset) := by
  refine ⟨?_, ?_, ?_⟩
  · decide
  · intro c ts v
    rw [scale_eq_match]
    constructor
    · intro he
      cases hg : _get_scale_for_units c.scalemap (standardize_units ts) with
      | ok b => rw [hg] at he; simp at he
      | error e =>
        rw [hg] at he
        unfold _get_scale_for_units at hg
        exact (getScaleGo_error _ _ e hg).2
    · intro hex
      have herr := getScaleGo_error_of_none
        (c.scalemap.zip (standardize_units ts)) (1, 0) hex
      unfold _get_scale_for_units
      rw [herr]
  · intro c ts v r hr
    rw [scale_eq_match] at hr
    cases hg : _get_scale_for_units c.scalemap (standardize_units ts) with
    | error e => rw [hg] at hr; simp at hr
    | ok b =>
      obtain ⟨S, O⟩ := b
      rw [hg] at hr
      simp only [Except.ok.injEq] at hr
      refine ⟨S, O, rfl, ?_⟩
      rw [← hr]
      rfl

/-- C5 (amended): when the Converters built from `U` and from `V` resolve the
same dimensions and their scales are non-zero, converting `v` from `U` to `V`
and the result back from `V` to `U` returns exactly `v`. -/
theorem C5_roundtrip_amended (U V : String) (c1 c2 : Converter) (v w : ℚ)
    (h1 : Converter.mk? (some U) none = .ok c1)
    (h2 : Converter.mk? (some V) none = .ok c2)
    (hdim : c1.dimension = c2.dimension)
    (hb1 : c1.scalebase ≠ 0) (hb2 : c2.scalebase ≠ 0)
    (hv : c1.scale V v = .ok w) :
    c2.scale U w = .ok v := by
  obtain ⟨_, hm1, hs1⟩ := mk?_ok_fields U c1 h1
  obtain ⟨_, hm2, hs2⟩ := mk?_ok_fields V c2 h2
  have hmap : c1.scalemap = c2.scalemap := by rw [hm1, hm2, hdim]
  rw [scale_eq_match, hmap, hs2] at hv
  simp only [Except.ok.injEq] at hv
  rw [scale_eq_match, ← hmap, hs1]
  simp only [Except.ok.injEq]
  rw [← hv]
  simp only [Converter._scale_with_offset]
  field_simp
  ring

theorem mk?_of_unmatched_token (u t : String)
    (hu : standardize_units u = [t])
    (hamb : aget t = none)
    (hscan : DIMENSIONS.find? (fun p => (dget p.2 t).isSome) = none) :
    resolveDimension (joinUnits [t]) t = .ok "dimensionless" ∧
    Converter.mk? (some u) none = .error .valueError := by
  have hres : resolveDimension (joinUnits [t]) t = .ok "dimensionless" := by
    unfold resolveDimension
    rw [hamb]
    simp [hscan]
  refine ⟨hres, ?_⟩
  have hnone : dget dimensionless_dim t = none := by
    have hall := List.find?_eq_none.mp hscan
    have hmem : ("dimensionless", dimensionless_dim) ∈ DIMENSIONS := by
      unfold DIMENSIONS
      simp
    have := hall _ hmem
    simpa using this
  unfold Converter.mk?
  simp only [Option.getD_some]
  rw [hu]
  have hmapM : ([t].mapM (resolveDimension (joinUnits [t]))
      : Except PyErr (List String)) = .ok ["dimensionless"] := by
    simp [List.mapM.loop, hres, Bind.bind, Except.bind, Pure.pure, Except.pure]
  rw [hmapM]
  simp only [Bind.bind, Except.bind]
  have hsm : dimsGet "dimensionless" = some dimensionless_dim := by rfl
  simp only [List.map_cons, List.map_nil, hsm, Option.getD_some]
  have hfold : _get_scale_for_units [dimensionless_dim] [t]
      = .error .valueError := by
    unfold _get_scale_for_units
    simp [getScaleGo, hnone]
  rw [hfold]

/-- C3 (amended): a unit string whose normalized token matches no dimension
table resolves to the `dimensionless` dimension, but `Converter` construction
then fails with `ValueError` while computing the scale base, because the
token is not a key of the dimensionless table either; construction does not
silently produce a scale-1 converter. -/
theorem C3_unrecognized_token (u t : String)
    (hu : standardize_units u = [t])
    (hamb : aget t = none)
    (hscan : DIMENSIONS.find? (fun p => (dget p.2 t).isSome) = none) :
    resolveDimension (joinUnits [t]) t = .ok "dimensionless" ∧
    Converter.mk? (some u) none = .error .valueError :=
  mk?_of_unmatched_token u t hu hamb hscan

set_option maxRecDepth 400000 in
set_option maxHeartbeats 4000000 in
/-- C8 (amended): re-normalizing the canonical form of `u` returns the same
token sequence whenever the substitution stages (spelling, exponent
attachment, prefix glue, `*`, inverse markers, punctuation) leave the joined
canonical string unchanged and every canonical token has the canonical shape
(non-empty, whitespace- and slash-free, and caret/brace-free or
`name^\x7b...\x7d`).  Unrestricted idempotence fails: see the
counterexample, where the canonical token of `me_ter` is rewritten again. -/
theorem C8_normalization_idempotent (u : String)
    (hfix : preFormat (spellSubs (joinUnits (standardize_units u)).data)
        = (joinUnits (standardize_units u)).data)
    (hcanon : ∀ t ∈ standardize_units u, isCanonTok t.data = true) :
    standardize_units (joinUnits (standardize_units u))
      = standardize_units u := by
  have key : ∀ ts : List String, (∀ t ∈ ts, isCanonTok t.data = true) →
      preFormat (spellSubs (joinUnits ts).data) = (joinUnits ts).data →
      standardize_units (joinUnits ts) = ts := by
    intro ts hc hf
    show assembleTokens (preFormat (spellSubs (joinUnits ts).data)) = ts
    rw [hf]
    have hdata : (joinUnits ts).data = joinSpC (ts.map (·.data)) := rfl
    rw [hdata]
    exact assembleTokens_join _ hc
  exact key (standardize_units u) hcanon hfix

set_option maxRecDepth 400000 in
set_option maxHeartbeats 4000000 in
/-- C8 witness facts for the amended idempotence theorem at `u = "m^2"`. -/
theorem C8_witness :
    standardize_units "m^2" = ["m^\x7b2\x7d"] ∧
    standardize_units (joinUnits (standardize_units "m^2"))
      = standardize_units "m^2" :=
  ⟨by decide,
   C8_normalization_idempotent "m^2" (by decide) (by decide)⟩

set_option maxRecDepth 400000 in
set_option maxHeartbeats 4000000 in
/-- C8 counterexample: normalization is not idempotent as claimed; the input
`me_ter` normalizes to the single token `meter`, and re-normalizing that
canonical form yields `m` instead. -/
theorem C8_counterexample :
    standardize_units "me_ter" = ["meter"] ∧
    standardize_units (joinUnits (standardize_units "me_ter")) = ["m"] ∧
    standardize_units (joinUnits (standardize_units "me_ter"))
      ≠ standardize_units "me_ter" := by
  refine ⟨by decide, by decide, by decide⟩

set_option maxHeartbeats 1000000 in
/-- C9 (amended): token assembly emits a factor with a bare positive exponent
of 1 as the bare unit name with no caret and no trailing space (the
intermediate trailing space is removed by the final `strip`); a factor with a
brace-free explicit exponent as `name^\x7bexp\x7d` left of the first `/` and
as `name^\x7b-exp\x7d` right of it; a bare factor right of the first `/` as
`name^\x7b-1\x7d`; and a factor already carrying a braced exponent
`name^\x7be\x7d` unchanged left of the first `/` (assembly doubles the braces
and the final replaces collapse them back), while right of the first `/` only
the doubled closing brace is collapsed, leaving `name^\x7b-\x7be\x7d`. -/
theorem C9_token_assembly :
    (∀ item : Str, splitOnC '^' item = [item] → item ≠ [] →
        wsFreeB item = true → braceFreeB item = true →
        tokOf [] item = item ∧ tokOf [] item ≠ item ++ [' ']) ∧
    (∀ n num : Str, (∀ c ∈ n, c ≠ '^') → (∀ c ∈ num, c ≠ '^') →
        wsFreeB n = true → wsFreeB num = true →
        braceFreeB n = true → braceFreeB num = true →
        tokOf [] (n ++ '^' :: num)
            = n ++ '^' :: '\x7b' :: (num ++ ['\x7d']) ∧
        tokOf ['-'] (n ++ '^' :: num)
            = n ++ '^' :: '\x7b' :: '-' :: (num ++ ['\x7d'])) ∧
    (∀ item : Str, splitOnC '^' item = [item] → item ≠ [] →
        wsFreeB item = true → braceFreeB item = true →
        tokOf ['-'] item = item ++ '^' :: '\x7b' :: '-' :: '1' :: ['\x7d']) ∧
    (∀ n inner : Str, (∀ c ∈ n, c ≠ '^') → (∀ c ∈ inner, c ≠ '^') →
        wsFreeB n = true → wsFreeB inner = true →
        braceFreeB n = true → braceFreeB inner = true →
        tokOf [] (n ++ '^' :: '\x7b' :: (inner ++ ['\x7d']))
            = n ++ '^' :: '\x7b' :: (inner ++ ['\x7d']) ∧
        tokOf ['-'] (n ++ '^' :: '\x7b' :: (inner ++ ['\x7d']))
            = n ++ '^' :: '\x7b' :: '-' :: '\x7b' :: (inner ++ ['\x7d'])) := by
  refine ⟨?_, ?_, ?_, ?_⟩
  · intro item hsplit hne hws hbrace
    have heq : tokOf [] item = item := by
      unfold tokOf
      rw [hsplit]
      simp only [reduceCtorEq, if_false]
      rw [pyStrip_append_space item hne hws, collapseBraces_id item hbrace]
    refine ⟨heq, ?_⟩
    rw [heq]
    simp
  · intro n num hn hnum hwsn hwsnum hbn hbnum
    have hsplit : splitOnC '^' (n ++ '^' :: num) = [n, num] := by
      rw [splitOnC_append_sep '^' n num hn, splitOnC_eq_self '^' num hnum]
    constructor
    · unfold tokOf
      rw [hsplit]
      simp only [List.nil_append]
      have hws : wsFreeB (n ++ '^' :: '\x7b' :: (num ++ ['\x7d'])) = true := by
        rw [wsFreeB_append]
        simp only [Bool.and_eq_true]
        refine ⟨hwsn, ?_⟩
        simp only [wsFreeB, List.all_cons, List.all_append, List.all_nil,
          Bool.and_eq_true]
        refine ⟨by rfl, by rfl, ?_, by rfl, trivial⟩
        simpa [wsFreeB] using hwsnum
      rw [pyStrip_of_wsFree _ hws, collapseBraces_single n num hbn hbnum]
    · unfold tokOf
      rw [hsplit]
      simp only [List.nil_append, List.cons_append, List.append_assoc,
        List.singleton_append]
      have hws2 : wsFreeB (n ++ '^' :: '\x7b' :: '-' :: (num ++ ['\x7d']))
          = true := by
        rw [wsFreeB_append, hwsn, Bool.true_and, wsFreeB_cons, wsFreeB_cons,
          wsFreeB_cons, wsFreeB_append, hwsnum]
        rfl
      rw [pyStrip_of_wsFree _ hws2]
      exact collapseBraces_single n ('-' :: num) hbn (by
        simp only [braceFreeB, List.all_cons, Bool.and_eq_true]
        exact ⟨by rfl, hbnum⟩)
  · intro item hsplit hne hws hbrace
    unfold tokOf
    rw [hsplit]
    simp only [if_true]
    have hshape : item ++ '^' :: '\x7b' :: ['-'] ++ '1' :: ['\x7d']
        = item ++ '^' :: '\x7b' :: (['-', '1'] ++ ['\x7d']) := by simp
    rw [hshape]
    have hwsall : wsFreeB (item ++ '^' :: '\x7b' ::
        (['-', '1'] ++ ['\x7d'])) = true := by
      rw [wsFreeB_append]
      simp only [Bool.and_eq_true]
      exact ⟨hws, by rfl⟩
    rw [pyStrip_of_wsFree _ hwsall,
      collapseBraces_single item ['-', '1'] hbrace (by rfl)]
    simp
  · intro n inner hn hinner hwsn hwsinner hbn hbi
    have hnumfree : ∀ c ∈ ('\x7b' :: (inner ++ ['\x7d'])), c ≠ '^' := by
      intro c hc
      rcases List.mem_cons.mp hc with rfl | hc2
      · decide
      · rcases List.mem_append.mp hc2 with h3 | h4
        · exact hinner c h3
        · simp only [List.mem_singleton] at h4
          subst h4
          decide
    have hsplit : splitOnC '^' (n ++ '^' :: '\x7b' :: (inner ++ ['\x7d']))
        = [n, '\x7b' :: (inner ++ ['\x7d'])] := by
      rw [splitOnC_append_sep '^' n ('\x7b' :: (inner ++ ['\x7d'])) hn,
        splitOnC_eq_self '^' ('\x7b' :: (inner ++ ['\x7d'])) hnumfree]
    constructor
    · unfold tokOf
      rw [hsplit]
      simp only [List.nil_append, List.cons_append, List.append_assoc,
        List.singleton_append]
      have hws : wsFreeB (n ++ '^' :: '\x7b' :: '\x7b' ::
          (inner ++ ['\x7d', '\x7d'])) = true := by
        rw [wsFreeB_append, hwsn, Bool.true_and, wsFreeB_cons, wsFreeB_cons,
          wsFreeB_cons, wsFreeB_append, hwsinner]
        rfl
      rw [pyStrip_of_wsFree _ hws]
      exact collapseBraces_double n inner hbn hbi
    · unfold tokOf
      rw [hsplit]
      simp only [List.nil_append, List.cons_append, List.append_assoc,
        List.singleton_append]
      have hws2 : wsFreeB (n ++ '^' :: '\x7b' :: '-' :: '\x7b' ::
          (inner ++ ['\x7d', '\x7d'])) = true := by
        rw [wsFreeB_append, hwsn, Bool.true_and, wsFreeB_cons, wsFreeB_cons,
          wsFreeB_cons, wsFreeB_cons, wsFreeB_append, hwsinner]
        rfl
      rw [pyStrip_of_wsFree _ hws2]
      exact collapseBraces_neg_braced n inner hbn hbi

set_option maxRecDepth 400000 in
set_option maxHeartbeats 4000000 in
/-- C9 witness: the amended emission rules at the concrete factors `m`
(bare, positive side), `m^2` (explicit exponent, both sides of the `/`) and
`Å^\x7b-2\x7d` (braced exponent, re-emitted unchanged on the positive side),
together with the full pipeline on `1/m^2` and `Å^\x7b-2\x7d`. -/
theorem C9_witness :
    tokOf [] "m".data = "m".data ∧
    tokOf [] ("m".data ++ '^' :: "2".data)
      = "m".data ++ '^' :: '\x7b' :: ("2".data ++ ['\x7d']) ∧
    tokOf ['-'] ("m".data ++ '^' :: "2".data)
      = "m".data ++ '^' :: '\x7b' :: '-' :: ("2".data ++ ['\x7d']) ∧
    tokOf [] ("Å".data ++ '^' :: '\x7b' :: ("-2".data ++ ['\x7d']))
      = "Å".data ++ '^' :: '\x7b' :: ("-2".data ++ ['\x7d']) ∧
    _format_unit_structure "1/m^2" = ["m^\x7b-2\x7d"] ∧
    _format_unit_structure "Å^\x7b-2\x7d" = ["Å^\x7b-2\x7d"] :=
  ⟨(C9_token_assembly.1 "m".data (by decide) (by decide) (by decide)
      (by decide)).1,
   (C9_token_assembly.2.1 "m".data "2".data (by decide) (by decide)
     (by decide) (by decide) (by decide) (by decide)).1,
   (C9_token_assembly.2.1 "m".data "2".data (by decide) (by decide)
     (by decide) (by decide) (by decide) (by decide)).2,
   (C9_token_assembly.2.2.2 "Å".data "-2".data (by decide) (by decide)
     (by decide) (by decide) (by decide) (by decide)).1,
   by decide, by decide⟩

set_option maxRecDepth 400000 in
set_option maxHeartbeats 4000000 in
/-- C9 counterexample: the emitted token for the bare factor `m` is `m`
itself, not `m ` with a trailing space as claimed; the final `strip` removes
the intermediate trailing space. -/
theorem C9_counterexample :
    _format_unit_structure "m" = ["m"] ∧
    _format_unit_structure "m" ≠ ["m" ++ " "] := by
  refine ⟨by decide, by decide⟩

set_option maxRecDepth 1000000 in
set_option maxHeartbeats 4000000 in
unseal Rat.mul Rat.inv Rat.add Rat.sub in
/-- C1: the code's temperature conversion evaluated at the claimed inputs:
`0 degC -> degF` yields `-554.256` and `100 degC -> degF` yields `-374.256`
(the claim says `32.0` and `212.0`; the code applies the source and target
offsets in swapped order), while `0 K -> degC` does yield `-273.15`. -/
theorem C1_temperature_affine :
    ((Converter.mk? (some "degC")).bind (fun c => c.scale "degF" 0)
        = .ok (-(69282/125) : ℚ)) ∧
    ((-(69282/125) : ℚ) ≠ 32) ∧
    ((Converter.mk? (some "degC")).bind (fun c => c.scale "degF" 100)
        = .ok (-(46782/125) : ℚ)) ∧
    ((-(46782/125) : ℚ) ≠ 212) ∧
    ((Converter.mk? (some "K")).bind (fun c => c.scale "degC" 0)
        = .ok (-(5463/20) : ℚ)) := by
  refine ⟨by decide, by norm_num, by decide, by norm_num, by decide⟩

set_option maxRecDepth 1000000 in
set_option maxHeartbeats 8000000 in
unseal Rat.mul Rat.inv Rat.add Rat.sub in
/-- The token `foo` is found in no dimension table. -/
theorem dimScan_foo :
    DIMENSIONS.find? (fun p => (dget p.2 "foo").isSome) = none := by decide

/-- C3 counterexample: constructing a Converter from the unrecognized unit
string `foo` raises `ValueError` at construction time, refuting the claim
that construction never fails and yields a scale-1 dimensionless converter. -/
theorem C3_counterexample :
    standardize_units "foo" = ["foo"] ∧
    Converter.mk? (some "foo") = .error .valueError :=
  ⟨by decide,
   (mk?_of_unmatched_token "foo" "foo" (by decide) (by decide)
     dimScan_foo).2⟩

/-- C3 witness: the amended theorem applied at the unrecognized token
`foo`. -/
theorem C3_witness :
    resolveDimension (joinUnits ["foo"]) "foo" = .ok "dimensionless" ∧
    Converter.mk? (some "foo") none = .error .valueError :=
  C3_unrecognized_token "foo" "foo" (by decide) (by decide) dimScan_foo

set_option maxRecDepth 1000000 in
set_option maxHeartbeats 4000000 in
unseal Rat.mul Rat.inv Rat.add Rat.sub in
/-- C5 counterexample: `min` and `hour` are both registered in the `time`
dimension, but the Converter built from `min` resolves (via the ambiguity
table) to the `angle` dimension, so converting toward `hour` raises instead
of beginning a round trip; the claim as stated fails for this pair. -/
theorem C5_counterexample :
    dget time_dim "min" = some (.scal 60) ∧
    dget time_dim "hour" = some (.scal 3600) ∧
    ((Converter.mk? (some "min")).bind (fun c => c.scale "hour" (0 : ℚ))
      = .error .valueError) := by
  refine ⟨by decide, by decide, by decide⟩

set_option maxRecDepth 1000000 in
set_option maxHeartbeats 8000000 in
unseal Rat.mul Rat.inv Rat.add Rat.sub in
/-- C5 witness: the amended round-trip theorem at `U = degC`, `V = degF`,
`v = 0`: the first conversion yields `-554.256` and converting it back
returns exactly `0`. -/
theorem C5_witness :
    convDegF.scale "degC" (-(69282/125) : ℚ) = .ok 0 := by
  have hok1 : (Converter.mk? (some "degC") none).toOption.isSome = true := by
    decide
  have hok2 : (Converter.mk? (some "degF") none).toOption.isSome = true := by
    decide
  have h1 : Converter.mk? (some "degC") none = .ok convDegC := by
    unfold convDegC
    cases h : Converter.mk? (some "degC") none with
    | ok c => simp [Except.toOption]
    | error e => rw [h] at hok1; simp [Except.toOption] at hok1
  have h2 : Converter.mk? (some "degF") none = .ok convDegF := by
    unfold convDegF
    cases h : Converter.mk? (some "degF") none with
    | ok c => simp [Except.toOption]
    | error e => rw [h] at hok2; simp [Except.toOption] at hok2
  have hdim : convDegC.dimension = convDegF.dimension := by decide
  exact C5_roundtrip_amended "degC" "degF" convDegC convDegF 0 (-(69282/125))
    h1 h2 hdim (by decide) (by decide) (by decide)

set_option maxRecDepth 1000000 in
set_option maxHeartbeats 8000000 in
unseal Rat.mul Rat.inv Rat.add Rat.sub in
/-- C6 (amended): the spellings `mm`, `milli*metre`, `milli_meter` and
`millimeters` all resolve in the distance dimension with scale `1e-3`;
`Millimeter` instead normalizes to `Millim` (the meter rewrite leaves the
capitalized prefix), which is not a distance-table key. -/
theorem C6_millimeter_spellings :
    ((Converter.mk? (some "mm")).map
        (fun c => (c.dimension, c.scalebase, c.scaleoffset))
      = .ok (["distance"], 1/1000, 0)) ∧
    ((Converter.mk? (some "milli*metre")).map
        (fun c => (c.dimension, c.scalebase, c.scaleoffset))
      = .ok (["distance"], 1/1000, 0)) ∧
    ((Converter.mk? (some "milli_meter")).map
        (fun c => (c.dimension, c.scalebase, c.scaleoffset))
      = .ok (["distance"], 1/1000, 0)) ∧
    ((Converter.mk? (some "millimeters")).map
        (fun c => (c.dimension, c.scalebase, c.scaleoffset))
      = .ok (["distance"], 1/1000, 0)) ∧
    standardize_units "Millimeter" = ["Millim"] ∧
    dget distance_dim "Millim" = none := by
  refine ⟨by decide, by decide, by decide, by decide, by decide, by decide⟩

set_option maxRecDepth 1000000 in
set_option maxHeartbeats 8000000 in
unseal Rat.mul Rat.inv Rat.add Rat.sub in
/-- C6 counterexample: `Millimeter` normalizes to the token `Millim`, which
is not a key of the distance table, so the fifth spelling does not resolve
to scale `1e-3` in the distance dimension. -/
theorem C6_counterexample :
    standardize_units "Millimeter" = ["Millim"] ∧
    dget distance_dim "Millim" = none := by
  refine ⟨by decide, by decide⟩

set_option maxRecDepth 1000000 in
set_option maxHeartbeats 4000000 in
unseal Rat.mul Rat.inv Rat.add Rat.sub in
/-- C7: the single ambiguous token `A` with no explicit dimension resolves
through the ambiguity table to the distance dimension with the Angstrom
scale `1e-10`, not to electrical current. -/
theorem C7_ambiguous_A :
    standardize_units "A" = ["A"] ∧
    ((Converter.mk? (some "A")).map
        (fun c => (c.dimension, c.scalebase, c.scaleoffset))
      = .ok (["distance"], 1/10^10, 0)) := by
  refine ⟨by decide, by decide⟩

set_option maxRecDepth 1000000 in
set_option maxHeartbeats 4000000 in
unseal Rat.mul Rat.inv Rat.add Rat.sub in
/-- C10: for the two-token string `A s`, whose first token is an ambiguity
key, dimension resolution indexes the ambiguity table with the whole joined
string `A s`, which is not a key, so construction fails with the `KeyError`
failure instead of resolving a default dimension. -/
theorem C10_joined_ambiguity_lookup :
    standardize_units "A s" = ["A", "s"] ∧
    (aget "A").isSome = true ∧
    aget "A s" = none ∧
    Converter.mk? (some "A s") = .error .keyError := by
  refine ⟨by decide, by decide, by decide, by decide⟩

set_option maxRecDepth 1000000 in
set_option maxHeartbeats 4000000 in
unseal Rat.mul Rat.inv Rat.add Rat.sub in
/-- C2 witness: the conversion-formula theorem at a concrete temperature
converter with target `K`. -/
theorem C2_witness :
    (⟨["degC"], ["temperature"], [temperature_dim], 1, -(27315/100)⟩
        : Converter).scale "K" 10
      = .ok ((10 + 0) * 1 / 1 - (-(27315/100))) :=
  (C2_conversion_formula
    ⟨["degC"], ["temperature"], [temperature_dim], 1, -(27315/100)⟩
    "K" 10 1 0 (by decide)).2.2.1

set_option maxRecDepth 1000000 in
set_option maxHeartbeats 4000000 in
unseal Rat.mul Rat.inv Rat.add Rat.sub in
/-- C4 witness: the incompatibility criterion applied at a concrete distance
converter with target `degC`. -/
theorem C4_witness :
    (⟨["m"], ["distance"], [distance_dim], 1, 0⟩ : Converter).scale
        "degC" 5 = .error .valueError := by
  refine (C4_incompatible_units.2.1
    ⟨["m"], ["distance"], [distance_dim], 1, 0⟩ "degC" 5).mpr ?_
  have hzip : (Converter.mk ["m"] ["distance"] [distance_dim]
        1 0).scalemap.zip (standardize_units "degC")
      = [(distance_dim, "degC")] := by rfl
  rw [hzip]
  exact ⟨(distance_dim, "degC"), by simp, by decide⟩
